import Mathlib

set_option maxRecDepth 20000

namespace IsUtf8

/-- Verdict of a UTF-8 validation run. This mirrors the Rust
`Result<(), Utf8Error>` of `is_utf8`, where `Utf8Error` carries the
`valid_up_to` index and the optional `error_len` byte count
(`Utf8ErrorImpl(usize, Option<u8>)` in `lib.rs`). -/
inductive Utf8Result where
  | ok : Utf8Result
  | invalid (valid_up_to : Nat) (error_len : Option Nat) : Utf8Result
deriving DecidableEq, Repr

/-- The `UTF8_CHAR_WIDTH` table of `lib.rs`: maps a leading byte to the
total width of the encoded character (1-4), or 0 for an invalid lead. -/
def UTF8_CHAR_WIDTH : List Nat := [
  1,1,1,1,1,1,1,1,1,1,1,1,1,1,1,1,
  1,1,1,1,1,1,1,1,1,1,1,1,1,1,1,1,
  1,1,1,1,1,1,1,1,1,1,1,1,1,1,1,1,
  1,1,1,1,1,1,1,1,1,1,1,1,1,1,1,1,
  1,1,1,1,1,1,1,1,1,1,1,1,1,1,1,1,
  1,1,1,1,1,1,1,1,1,1,1,1,1,1,1,1,
  1,1,1,1,1,1,1,1,1,1,1,1,1,1,1,1,
  1,1,1,1,1,1,1,1,1,1,1,1,1,1,1,1,
  0,0,0,0,0,0,0,0,0,0,0,0,0,0,0,0,
  0,0,0,0,0,0,0,0,0,0,0,0,0,0,0,0,
  0,0,0,0,0,0,0,0,0,0,0,0,0,0,0,0,
  0,0,0,0,0,0,0,0,0,0,0,0,0,0,0,0,
  0,0,2,2,2,2,2,2,2,2,2,2,2,2,2,2,
  2,2,2,2,2,2,2,2,2,2,2,2,2,2,2,2,
  3,3,3,3,3,3,3,3,3,3,3,3,3,3,3,3,
  4,4,4,4,4,0,0,0,0,0,0,0,0,0,0,0]

/-- Lookup in `UTF8_CHAR_WIDTH` (`UTF8_CHAR_WIDTH[first as usize]`). -/
def utf8CharWidth (b : Nat) : Nat := UTF8_CHAR_WIDTH.getD b 0

/-- The continuation-byte test of `lib.rs`: `byte & !CONT_MASK == TAG_CONT_U8`,
with `CONT_MASK = 0b0011_1111` and `TAG_CONT_U8 = 0b1000_0000`. -/
def contOk (b : Nat) : Bool := b &&& 0xC0 == 0x80

/-- The second-byte range check of the width-3 arm of `lib.rs is_utf8`:
the match over `(first, next!())` with arms `(0xE0, 0xA0...0xBF)`,
`(0xE1...0xEC, 0x80...0xBF)`, `(0xED, 0x80...0x9F)`,
`(0xEE...0xEF, 0x80...0xBF)`. -/
def valid3 (first c : Nat) : Bool :=
  decide ((first = 0xE0 ∧ 0xA0 ≤ c ∧ c ≤ 0xBF) ∨
          (0xE1 ≤ first ∧ first ≤ 0xEC ∧ 0x80 ≤ c ∧ c ≤ 0xBF) ∨
          (first = 0xED ∧ 0x80 ≤ c ∧ c ≤ 0x9F) ∨
          (0xEE ≤ first ∧ first ≤ 0xEF ∧ 0x80 ≤ c ∧ c ≤ 0xBF))

/-- The second-byte range check of the width-4 arm of `lib.rs is_utf8`:
arms `(0xF0, 0x90...0xBF)`, `(0xF1...0xF3, 0x80...0xBF)`,
`(0xF4, 0x80...0x8F)`. -/
def valid4 (first c : Nat) : Bool :=
  decide ((first = 0xF0 ∧ 0x90 ≤ c ∧ c ≤ 0xBF) ∨
          (0xF1 ≤ first ∧ first ≤ 0xF3 ∧ 0x80 ≤ c ∧ c ≤ 0xBF) ∨
          (first = 0xF4 ∧ 0x80 ≤ c ∧ c ≤ 0x8F))

/-- The main loop of `lib.rs is_utf8`, with `off` the running index of the
start of the current unit (`old_offset` in the source). Each `err!(e)` of
the source returns `Utf8ErrorImpl(old_offset, e)`, and `next!()` returns the
next byte or errors with `None` when the input ends. The word-at-a-time
ASCII skip of the source (the aligned two-word loop plus the byte-wise
`while index < len && v[index] < 128` cleanup, and the unaligned
`index += 1` path) advances over exactly the ASCII bytes at the front of
the remaining input, one or more at a time, so its net effect per loop
round is captured by advancing over one ASCII byte. -/
def is_utf8_go : Nat → List Nat → Utf8Result
  | _, [] => .ok
  | off, first :: rest =>
    if first < 128 then
      is_utf8_go (off + 1) rest
    else if utf8CharWidth first = 2 then
      match rest with
      | [] => .invalid off none
      | c :: rest2 =>
        if contOk c then is_utf8_go (off + 2) rest2
        else .invalid off (some 1)
    else if utf8CharWidth first = 3 then
      match rest with
      | [] => .invalid off none
      | c :: rest2 =>
        if valid3 first c then
          match rest2 with
          | [] => .invalid off none
          | d :: rest3 =>
            if contOk d then is_utf8_go (off + 3) rest3
            else .invalid off (some 2)
        else .invalid off (some 1)
    else if utf8CharWidth first = 4 then
      match rest with
      | [] => .invalid off none
      | c :: rest2 =>
        if valid4 first c then
          match rest2 with
          | [] => .invalid off none
          | d :: rest3 =>
            if contOk d then
              match rest3 with
              | [] => .invalid off none
              | e :: rest4 =>
                if contOk e then is_utf8_go (off + 4) rest4
                else .invalid off (some 3)
            else .invalid off (some 2)
        else .invalid off (some 1)
    else .invalid off (some 1)

/-- The grammar-based validator `is_utf8` of `lib.rs`. -/
def is_utf8 (v : List Nat) : Utf8Result := is_utf8_go 0 v

/-- The 364-entry table `UTF8D` of `hoehrmann.rs`: the first 256 entries map
a byte to its character class, the remaining 108 entries are the
state-and-class to state transition table. -/
def UTF8D : List Nat := [
  0,0,0,0,0,0,0,0,0,0,0,0,0,0,0,0,  0,0,0,0,0,0,0,0,0,0,0,0,0,0,0,0,
  0,0,0,0,0,0,0,0,0,0,0,0,0,0,0,0,  0,0,0,0,0,0,0,0,0,0,0,0,0,0,0,0,
  0,0,0,0,0,0,0,0,0,0,0,0,0,0,0,0,  0,0,0,0,0,0,0,0,0,0,0,0,0,0,0,0,
  0,0,0,0,0,0,0,0,0,0,0,0,0,0,0,0,  0,0,0,0,0,0,0,0,0,0,0,0,0,0,0,0,
  1,1,1,1,1,1,1,1,1,1,1,1,1,1,1,1,  9,9,9,9,9,9,9,9,9,9,9,9,9,9,9,9,
  7,7,7,7,7,7,7,7,7,7,7,7,7,7,7,7,  7,7,7,7,7,7,7,7,7,7,7,7,7,7,7,7,
  8,8,2,2,2,2,2,2,2,2,2,2,2,2,2,2,  2,2,2,2,2,2,2,2,2,2,2,2,2,2,2,2,
  10,3,3,3,3,3,3,3,3,3,3,3,3,4,3,3, 11,6,6,6,5,8,8,8,8,8,8,8,8,8,8,8,
  0,12,24,36,60,96,84,12,12,12,48,72, 12,12,12,12,12,12,12,12,12,12,12,12,
  12,0,12,12,12,12,12,0,12,0,12,12, 12,24,12,12,12,12,12,24,12,24,12,12,
  12,12,12,12,12,12,12,24,12,12,12,12, 12,24,12,12,12,12,12,12,12,24,12,12,
  12,12,12,12,12,12,12,36,12,36,12,12, 12,36,12,12,12,12,12,36,12,36,12,12,
  12,36,12,12,12,12,12,12,12,12,12,12]

/-- The `decode` step of `hoehrmann.rs`:
`UTF8D[256 + state + UTF8D[byte]]` (the source uses unchecked accesses;
the embedding reads with a default that is never hit on reachable states,
see the in-bounds theorem). -/
def decode (state byte : Nat) : Nat :=
  UTF8D.getD (256 + state + UTF8D.getD byte 0) 0

/-- The loop of `hoehrmann.rs is_utf8`: state `s`, tracked index
`first_not_ok` (`fno`), and current position `i`. On each byte the state is
advanced with `decode`; reaching `UTF8_ACCEPT = 0` moves `first_not_ok` past
the byte, reaching `UTF8_REJECT = 12` returns
`Err(first_not_ok, Some(1))`; at the end of input a non-ACCEPT state
returns `Err(first_not_ok, None)`. -/
def hoehrmann_go : Nat → Nat → Nat → List Nat → Utf8Result
  | s, fno, _, [] => if s = 0 then .ok else .invalid fno none
  | s, fno, i, b :: rest =>
    if decode s b = 0 then hoehrmann_go 0 (i + 1) (i + 1) rest
    else if decode s b = 12 then .invalid fno (some 1)
    else hoehrmann_go (decode s b) fno (i + 1) rest

/-- The DFA validator `is_utf8` of `hoehrmann.rs`. -/
def hoehrmann_is_utf8 (x : List Nat) : Utf8Result := hoehrmann_go 0 0 0 x

/-- The loop of `is_ascii_scalar` in `ascii.rs`, with `i` the index of the
head of the remaining list: `for (i, b) in x.iter().enumerate()`, returning
`Err(i)` at the first byte with `!b.is_ascii()` (`b.is_ascii()` is
`b <= 127` for a `u8`). -/
def is_ascii_scalar_go : Nat → List Nat → Except Nat Unit
  | _, [] => .ok ()
  | i, b :: rest => if b ≤ 127 then is_ascii_scalar_go (i + 1) rest else .error i

/-- `is_ascii_scalar` of `ascii.rs`. -/
def is_ascii_scalar (x : List Nat) : Except Nat Unit := is_ascii_scalar_go 0 x

/-- The block loop of `is_ascii_vector128` in `ascii.rs`, returning the
offset `i` at which the loop stops: while two 16-byte lanes remain
(`i + u8x16::lanes() * 2 <= len`), the 32 bytes at `i` are each masked with
`128` and compared with zero (`(x & v128).eq(zero).all()` lane-wise); if all
are zero the loop advances by 32, otherwise it stops. -/
def is_ascii_vector128_go (s : List Nat) (i : Nat) : Nat :=
  if h : i + 32 ≤ s.length then
    if ((s.drop i).take 32).all (fun b => b &&& 128 == 0) then
      is_ascii_vector128_go s (i + 32)
    else i
  else i
termination_by s.length - i
decreasing_by simp_wf; omega

/-- `is_ascii_vector128` of `ascii.rs`: after the block loop stops at `i`,
run `is_ascii_scalar` on `&s[i..]` and offset an error by `i`
(`.map_err(|e| e + i)`). -/
def is_ascii_vector128 (s : List Nat) : Except Nat Unit :=
  match is_ascii_scalar (s.drop (is_ascii_vector128_go s 0)) with
  | .ok _ => .ok ()
  | .error e => .error (e + is_ascii_vector128_go s 0)

/-- Reference form of the byte-class half of `UTF8D`, used only to organize
the proofs; it is checked against the table itself in `classAgrees`. -/
def utf8Class (b : Nat) : Nat :=
  if b < 0x80 then 0
  else if b < 0x90 then 1
  else if b < 0xA0 then 9
  else if b < 0xC0 then 7
  else if b < 0xC2 then 8
  else if b < 0xE0 then 2
  else if b = 0xE0 then 10
  else if b = 0xED then 4
  else if b < 0xF0 then 3
  else if b = 0xF0 then 11
  else if b ≤ 0xF3 then 6
  else if b = 0xF4 then 5
  else 8

/-- Relation asserted by the oracle-equivalence claim: same overall verdict,
and equal `valid_up_to` when both are errors. -/
def agreeVut : Utf8Result → Utf8Result → Prop
  | .ok, .ok => True
  | .invalid k1 _, .invalid k2 _ => k1 = k2
  | _, _ => False

/-- The DFA states other than REJECT that occur while running
`hoehrmann.rs is_utf8`. -/
def dfaReachable : List Nat := [0, 24, 36, 48, 60, 72, 84, 96]

/-- The successive first arguments passed to `decode` while the loop of
`hoehrmann.rs is_utf8` runs on the input: the state is recorded for each
byte consumed, and the loop stops right after a transition to REJECT. -/
def dfaStatesVisited : Nat → List Nat → List Nat
  | _, [] => []
  | s, b :: rest =>
    if decode s b = 12 then [s]
    else s :: dfaStatesVisited (decode s b) rest

theorem classAgrees : ∀ b, b < 256 → UTF8D.getD b 0 = utf8Class b := by decide

theorem contIff : ∀ c, c < 256 → (contOk c = true ↔ 0x80 ≤ c ∧ c ≤ 0xBF) := by decide

theorem widthAscii : ∀ b, b < 128 → utf8CharWidth b = 1 := by decide

theorem widthBadLow : ∀ b, b < 0xC2 → 128 ≤ b → utf8CharWidth b = 0 := by decide

theorem widthTwo : ∀ b, b < 0xE0 → 0xC2 ≤ b → utf8CharWidth b = 2 := by decide

theorem widthThree : ∀ b, b < 0xF0 → 0xE0 ≤ b → utf8CharWidth b = 3 := by decide

theorem widthFour : ∀ b, b < 0xF5 → 0xF0 ≤ b → utf8CharWidth b = 4 := by decide

theorem widthBadHigh : ∀ b, b < 256 → 0xF5 ≤ b → utf8CharWidth b = 0 := by decide

theorem widthThreeRange : ∀ b, b < 256 → utf8CharWidth b = 3 → 0xE0 ≤ b ∧ b < 0xF0 := by
  decide

theorem widthFourRange : ∀ b, b < 256 → utf8CharWidth b = 4 → 0xF0 ≤ b ∧ b < 0xF5 := by
  decide

theorem classLt12 : ∀ c, c < 256 → utf8Class c < 12 := by decide

theorem classVal0 : ∀ c, c < 0x80 → utf8Class c = 0 := by decide

theorem classVal1 : ∀ c, c < 0x90 → 0x80 ≤ c → utf8Class c = 1 := by decide

theorem classVal9 : ∀ c, c < 0xA0 → 0x90 ≤ c → utf8Class c = 9 := by decide

theorem classVal7 : ∀ c, c < 0xC0 → 0xA0 ≤ c → utf8Class c = 7 := by decide

theorem classVal2 : ∀ c, c < 0xE0 → 0xC2 ≤ c → utf8Class c = 2 := by decide

theorem classVal3 : ∀ c, c < 0xF0 → 0xE0 ≤ c → c ≠ 0xE0 → c ≠ 0xED → utf8Class c = 3 := by
  decide

theorem classVal6 : ∀ c, c ≤ 0xF3 → 0xF1 ≤ c → utf8Class c = 6 := by decide

theorem classVal8Low : ∀ c, c < 0xC2 → 0xC0 ≤ c → utf8Class c = 8 := by decide

theorem classVal8High : ∀ c, c < 256 → 0xF5 ≤ c → utf8Class c = 8 := by decide

theorem classMem179 : ∀ c, c < 0xC0 → 0x80 ≤ c →
    utf8Class c = 1 ∨ utf8Class c = 7 ∨ utf8Class c = 9 := by decide

theorem classNot179 : ∀ c, c < 256 → (c < 0x80 ∨ 0xC0 ≤ c) →
    ¬(utf8Class c = 1 ∨ utf8Class c = 7 ∨ utf8Class c = 9) := by decide

theorem classNot7 : ∀ c, c < 256 → (c < 0xA0 ∨ 0xC0 ≤ c) → utf8Class c ≠ 7 := by decide

theorem classNot19 : ∀ c, c < 256 → (c < 0x80 ∨ 0xA0 ≤ c) →
    utf8Class c ≠ 1 ∧ utf8Class c ≠ 9 := by decide

theorem classNot79 : ∀ c, c < 256 → (c < 0x90 ∨ 0xC0 ≤ c) →
    utf8Class c ≠ 7 ∧ utf8Class c ≠ 9 := by decide

theorem classNot1 : ∀ c, c < 256 → (c < 0x80 ∨ 0x90 ≤ c) → utf8Class c ≠ 1 := by decide

/-- Rows of the transition half of `UTF8D`, checked entry by entry. -/
theorem row24cont : ∀ k, k < 12 → (k = 1 ∨ k = 7 ∨ k = 9) →
    UTF8D.getD (280 + k) 0 = 0 := by decide

theorem row24other : ∀ k, k < 12 → ¬(k = 1 ∨ k = 7 ∨ k = 9) →
    UTF8D.getD (280 + k) 0 = 12 := by decide

theorem row36cont : ∀ k, k < 12 → (k = 1 ∨ k = 7 ∨ k = 9) →
    UTF8D.getD (292 + k) 0 = 24 := by decide

theorem row36other : ∀ k, k < 12 → ¬(k = 1 ∨ k = 7 ∨ k = 9) →
    UTF8D.getD (292 + k) 0 = 12 := by decide

theorem row48other : ∀ k, k < 12 → k ≠ 7 → UTF8D.getD (304 + k) 0 = 12 := by decide

theorem row60other : ∀ k, k < 12 → k ≠ 1 → k ≠ 9 → UTF8D.getD (316 + k) 0 = 12 := by decide

theorem row72other : ∀ k, k < 12 → k ≠ 7 → k ≠ 9 → UTF8D.getD (328 + k) 0 = 12 := by decide

theorem row84cont : ∀ k, k < 12 → (k = 1 ∨ k = 7 ∨ k = 9) →
    UTF8D.getD (340 + k) 0 = 36 := by decide

theorem row84other : ∀ k, k < 12 → ¬(k = 1 ∨ k = 7 ∨ k = 9) →
    UTF8D.getD (340 + k) 0 = 12 := by decide

theorem row96other : ∀ k, k < 12 → k ≠ 1 → UTF8D.getD (352 + k) 0 = 12 := by decide

/-- Characterization of `decode` at state `UTF8_ACCEPT` and at the
intermediate states, derived from the class and row facts. -/
theorem decodeAscii (b : Nat) (h : b < 128) : decode 0 b = 0 := by
  show UTF8D.getD (256 + 0 + UTF8D.getD b 0) 0 = 0
  rw [classAgrees b (by omega), classVal0 b h]
  decide

theorem decodeBadLow (b : Nat) (h1 : b < 0xC2) (h2 : 128 ≤ b) : decode 0 b = 12 := by
  show UTF8D.getD (256 + 0 + UTF8D.getD b 0) 0 = 12
  rw [classAgrees b (by omega)]
  rcases (by omega : b < 0x90 ∨ (0x90 ≤ b ∧ b < 0xA0) ∨ (0xA0 ≤ b ∧ b < 0xC0) ∨ 0xC0 ≤ b)
    with h | h | h | h
  · rw [classVal1 b h h2]; decide
  · rw [classVal9 b h.2 h.1]; decide
  · rw [classVal7 b h.2 h.1]; decide
  · rw [classVal8Low b h1 h]; decide

theorem decodeTwo (b : Nat) (h1 : b < 0xE0) (h2 : 0xC2 ≤ b) : decode 0 b = 24 := by
  show UTF8D.getD (256 + 0 + UTF8D.getD b 0) 0 = 24
  rw [classAgrees b (by omega), classVal2 b h1 h2]
  decide

theorem decodeBadHigh (b : Nat) (h1 : b < 256) (h2 : 0xF5 ≤ b) : decode 0 b = 12 := by
  show UTF8D.getD (256 + 0 + UTF8D.getD b 0) 0 = 12
  rw [classAgrees b h1, classVal8High b h1 h2]
  decide

theorem decodeContT (c : Nat) (hc : c < 256) (h : contOk c = true) :
    decode 24 c = 0 ∧ decode 36 c = 24 := by
  have hr := (contIff c hc).mp h
  have hcl := classMem179 c (by omega) hr.1
  constructor
  · show UTF8D.getD (256 + 24 + UTF8D.getD c 0) 0 = 0
    rw [classAgrees c hc, (by omega : 256 + 24 + utf8Class c = 280 + utf8Class c)]
    exact row24cont _ (classLt12 c hc) hcl
  · show UTF8D.getD (256 + 36 + UTF8D.getD c 0) 0 = 24
    rw [classAgrees c hc, (by omega : 256 + 36 + utf8Class c = 292 + utf8Class c)]
    exact row36cont _ (classLt12 c hc) hcl

theorem decodeContF (c : Nat) (hc : c < 256) (h : contOk c = false) :
    decode 24 c = 12 ∧ decode 36 c = 12 := by
  have hr : ¬(0x80 ≤ c ∧ c ≤ 0xBF) := by
    intro hx
    rw [(contIff c hc).mpr hx] at h
    cases h
  have hcl := classNot179 c hc (by omega)
  constructor
  · show UTF8D.getD (256 + 24 + UTF8D.getD c 0) 0 = 12
    rw [classAgrees c hc, (by omega : 256 + 24 + utf8Class c = 280 + utf8Class c)]
    exact row24other _ (classLt12 c hc) hcl
  · show UTF8D.getD (256 + 36 + UTF8D.getD c 0) 0 = 12
    rw [classAgrees c hc, (by omega : 256 + 36 + utf8Class c = 292 + utf8Class c)]
    exact row36other _ (classLt12 c hc) hcl

theorem decodeThreeE0 : decode 0 0xE0 = 48 := by decide

theorem decodeThreeED : decode 0 0xED = 60 := by decide

theorem decodeThreeMid (b : Nat) (h1 : b < 0xF0) (h2 : 0xE0 ≤ b) (h3 : b ≠ 0xE0)
    (h4 : b ≠ 0xED) : decode 0 b = 36 := by
  show UTF8D.getD (256 + 0 + UTF8D.getD b 0) 0 = 36
  rw [classAgrees b (by omega), classVal3 b h1 h2 h3 h4]
  decide

theorem decodeThreeLead (b : Nat) (h1 : b < 0xF0) (h2 : 0xE0 ≤ b) :
    decode 0 b ≠ 0 ∧ decode 0 b ≠ 12 := by
  by_cases h3 : b = 0xE0
  · subst h3; rw [decodeThreeE0]; exact ⟨by decide, by decide⟩
  by_cases h4 : b = 0xED
  · subst h4; rw [decodeThreeED]; exact ⟨by decide, by decide⟩
  · rw [decodeThreeMid b h1 h2 h3 h4]; exact ⟨by decide, by decide⟩

theorem decodeThreeT (b : Nat) (h1 : b < 0xF0) (h2 : 0xE0 ≤ b) (c : Nat) (hc : c < 256)
    (hv : valid3 b c = true) : decode (decode 0 b) c = 24 := by
  have hv' := of_decide_eq_true hv
  by_cases h3 : b = 0xE0
  · subst h3
    rw [decodeThreeE0]
    show UTF8D.getD (256 + 48 + UTF8D.getD c 0) 0 = 24
    have hcr : 0xA0 ≤ c ∧ c ≤ 0xBF := by omega
    rw [classAgrees c hc, classVal7 c (by omega) hcr.1]
    decide
  by_cases h4 : b = 0xED
  · subst h4
    rw [decodeThreeED]
    show UTF8D.getD (256 + 60 + UTF8D.getD c 0) 0 = 24
    have hcr : 0x80 ≤ c ∧ c ≤ 0x9F := by omega
    rcases (by omega : c < 0x90 ∨ 0x90 ≤ c) with h | h
    · rw [classAgrees c hc, classVal1 c h hcr.1]; decide
    · rw [classAgrees c hc, classVal9 c (by omega) h]; decide
  · rw [decodeThreeMid b h1 h2 h3 h4]
    show UTF8D.getD (256 + 36 + UTF8D.getD c 0) 0 = 24
    have hcr : 0x80 ≤ c ∧ c ≤ 0xBF := by omega
    rw [classAgrees c hc, (by omega : 256 + 36 + utf8Class c = 292 + utf8Class c)]
    exact row36cont _ (classLt12 c hc) (classMem179 c (by omega) hcr.1)

theorem decodeThreeF (b : Nat) (h1 : b < 0xF0) (h2 : 0xE0 ≤ b) (c : Nat) (hc : c < 256)
    (hv : valid3 b c = false) : decode (decode 0 b) c = 12 := by
  have hv' := of_decide_eq_false hv
  by_cases h3 : b = 0xE0
  · subst h3
    rw [decodeThreeE0]
    show UTF8D.getD (256 + 48 + UTF8D.getD c 0) 0 = 12
    rw [classAgrees c hc, (by omega : 256 + 48 + utf8Class c = 304 + utf8Class c)]
    exact row48other _ (classLt12 c hc) (classNot7 c hc (by omega))
  by_cases h4 : b = 0xED
  · subst h4
    rw [decodeThreeED]
    show UTF8D.getD (256 + 60 + UTF8D.getD c 0) 0 = 12
    rw [classAgrees c hc, (by omega : 256 + 60 + utf8Class c = 316 + utf8Class c)]
    have hn := classNot19 c hc (by omega)
    exact row60other _ (classLt12 c hc) hn.1 hn.2
  · rw [decodeThreeMid b h1 h2 h3 h4]
    show UTF8D.getD (256 + 36 + UTF8D.getD c 0) 0 = 12
    rw [classAgrees c hc, (by omega : 256 + 36 + utf8Class c = 292 + utf8Class c)]
    exact row36other _ (classLt12 c hc) (classNot179 c hc (by omega))

theorem decodeFourF0 : decode 0 0xF0 = 72 := by decide

theorem decodeFourF4 : decode 0 0xF4 = 96 := by decide

theorem decodeFourMid (b : Nat) (h1 : 0xF1 ≤ b) (h2 : b ≤ 0xF3) : decode 0 b = 84 := by
  show UTF8D.getD (256 + 0 + UTF8D.getD b 0) 0 = 84
  rw [classAgrees b (by omega), classVal6 b h2 h1]
  decide

theorem decodeFourLead (b : Nat) (h1 : b < 0xF5) (h2 : 0xF0 ≤ b) :
    decode 0 b ≠ 0 ∧ decode 0 b ≠ 12 := by
  by_cases h3 : b = 0xF0
  · subst h3; rw [decodeFourF0]; exact ⟨by decide, by decide⟩
  by_cases h4 : b = 0xF4
  · subst h4; rw [decodeFourF4]; exact ⟨by decide, by decide⟩
  · rw [decodeFourMid b (by omega) (by omega)]; exact ⟨by decide, by decide⟩

theorem decodeFourT (b : Nat) (h1 : b < 0xF5) (h2 : 0xF0 ≤ b) (c : Nat) (hc : c < 256)
    (hv : valid4 b c = true) : decode (decode 0 b) c = 36 := by
  have hv' := of_decide_eq_true hv
  by_cases h3 : b = 0xF0
  · subst h3
    rw [decodeFourF0]
    show UTF8D.getD (256 + 72 + UTF8D.getD c 0) 0 = 36
    have hcr : 0x90 ≤ c ∧ c ≤ 0xBF := by omega
    rcases (by omega : c < 0xA0 ∨ 0xA0 ≤ c) with h | h
    · rw [classAgrees c hc, classVal9 c h hcr.1]; decide
    · rw [classAgrees c hc, classVal7 c (by omega) h]; decide
  by_cases h4 : b = 0xF4
  · subst h4
    rw [decodeFourF4]
    show UTF8D.getD (256 + 96 + UTF8D.getD c 0) 0 = 36
    have hcr : 0x80 ≤ c ∧ c ≤ 0x8F := by omega
    rw [classAgrees c hc, classVal1 c (by omega) hcr.1]
    decide
  · rw [decodeFourMid b (by omega) (by omega)]
    show UTF8D.getD (256 + 84 + UTF8D.getD c 0) 0 = 36
    have hcr : 0x80 ≤ c ∧ c ≤ 0xBF := by omega
    rw [classAgrees c hc, (by omega : 256 + 84 + utf8Class c = 340 + utf8Class c)]
    exact row84cont _ (classLt12 c hc) (classMem179 c (by omega) hcr.1)

theorem decodeFourF (b : Nat) (h1 : b < 0xF5) (h2 : 0xF0 ≤ b) (c : Nat) (hc : c < 256)
    (hv : valid4 b c = false) : decode (decode 0 b) c = 12 := by
  have hv' := of_decide_eq_false hv
  by_cases h3 : b = 0xF0
  · subst h3
    rw [decodeFourF0]
    show UTF8D.getD (256 + 72 + UTF8D.getD c 0) 0 = 12
    rw [classAgrees c hc, (by omega : 256 + 72 + utf8Class c = 328 + utf8Class c)]
    have hn := classNot79 c hc (by omega)
    exact row72other _ (classLt12 c hc) hn.1 hn.2
  by_cases h4 : b = 0xF4
  · subst h4
    rw [decodeFourF4]
    show UTF8D.getD (256 + 96 + UTF8D.getD c 0) 0 = 12
    rw [classAgrees c hc, (by omega : 256 + 96 + utf8Class c = 352 + utf8Class c)]
    exact row96other _ (classLt12 c hc) (classNot1 c hc (by omega))
  · rw [decodeFourMid b (by omega) (by omega)]
    show UTF8D.getD (256 + 84 + UTF8D.getD c 0) 0 = 12
    rw [classAgrees c hc, (by omega : 256 + 84 + utf8Class c = 340 + utf8Class c)]
    exact row84other _ (classLt12 c hc) (classNot179 c hc (by omega))

theorem hgo_acc (s fno i b : Nat) (rest : List Nat) (h0 : decode s b = 0) :
    hoehrmann_go s fno i (b :: rest) = hoehrmann_go 0 (i + 1) (i + 1) rest := by
  simp [hoehrmann_go, h0]

theorem hgo_rej (s fno i b : Nat) (rest : List Nat) (h12 : decode s b = 12) :
    hoehrmann_go s fno i (b :: rest) = .invalid fno (some 1) := by
  simp [hoehrmann_go, h12]

theorem hgo_mid (s fno i b : Nat) (rest : List Nat) (h0 : decode s b ≠ 0)
    (h12 : decode s b ≠ 12) :
    hoehrmann_go s fno i (b :: rest) = hoehrmann_go (decode s b) fno (i + 1) rest := by
  simp only [hoehrmann_go]
  rw [if_neg h0, if_neg h12]

theorem hgo_nil_acc (fno i : Nat) : hoehrmann_go 0 fno i [] = .ok := by
  simp [hoehrmann_go]

theorem hgo_nil_mid (s fno i : Nat) (h : s ≠ 0) : hoehrmann_go s fno i [] = .invalid fno none := by
  simp [hoehrmann_go, h]

theorem igo_cons (off first : Nat) (rest : List Nat) :
    is_utf8_go off (first :: rest) =
      (if first < 128 then
        is_utf8_go (off + 1) rest
      else if utf8CharWidth first = 2 then
        match rest with
        | [] => .invalid off none
        | c :: rest2 =>
          if contOk c then is_utf8_go (off + 2) rest2
          else .invalid off (some 1)
      else if utf8CharWidth first = 3 then
        match rest with
        | [] => .invalid off none
        | c :: rest2 =>
          if valid3 first c then
            match rest2 with
            | [] => .invalid off none
            | d :: rest3 =>
              if contOk d then is_utf8_go (off + 3) rest3
              else .invalid off (some 2)
          else .invalid off (some 1)
      else if utf8CharWidth first = 4 then
        match rest with
        | [] => .invalid off none
        | c :: rest2 =>
          if valid4 first c then
            match rest2 with
            | [] => .invalid off none
            | d :: rest3 =>
              if contOk d then
                match rest3 with
                | [] => .invalid off none
                | e :: rest4 =>
                  if contOk e then is_utf8_go (off + 4) rest4
                  else .invalid off (some 3)
              else .invalid off (some 2)
          else .invalid off (some 1)
      else .invalid off (some 1)) := by
  cases rest with
  | nil => rfl
  | cons c rest2 =>
    cases rest2 with
    | nil => rfl
    | cons d rest3 =>
      cases rest3 with
      | nil => rfl
      | cons e rest4 => rfl

/-- Main agreement induction: from a unit boundary (DFA in state
`UTF8_ACCEPT`, `first_not_ok` equal to the current index), the two
validators produce verdicts related by `agreeVut`. -/
theorem agree_aux : ∀ (n : Nat) (v : List Nat), v.length ≤ n → (∀ b ∈ v, b < 256) →
    ∀ off : Nat, agreeVut (is_utf8_go off v) (hoehrmann_go 0 off off v) := by
  intro n
  induction n with
  | zero =>
    intro v hlen _ off
    have hv : v = [] := List.eq_nil_of_length_eq_zero (by omega)
    subst hv
    simp [is_utf8_go, hoehrmann_go, agreeVut]
  | succ n ih =>
    intro v hlen hb off
    cases v with
    | nil => simp [is_utf8_go, hoehrmann_go, agreeVut]
    | cons b rest =>
      have hb0 : b < 256 := hb b (List.mem_cons_self _ _)
      have hbr : ∀ x ∈ rest, x < 256 := fun x hx => hb x (List.mem_cons_of_mem _ hx)
      have hlen1 : rest.length ≤ n := by simp at hlen; omega
      by_cases h1 : b < 128
      · -- ASCII byte: both validators advance one byte at a unit boundary
        have e1 : is_utf8_go off (b :: rest) = is_utf8_go (off + 1) rest := by
          rw [igo_cons]; simp [h1]
        have e2 : hoehrmann_go 0 off off (b :: rest) = hoehrmann_go 0 (off + 1) (off + 1) rest :=
          hgo_acc _ _ _ _ _ (decodeAscii b h1)
        rw [e1, e2]
        exact ih rest hlen1 hbr (off + 1)
      · have h1' : 128 ≤ b := by omega
        by_cases h2 : b < 0xC2
        · -- invalid lead byte below 0xC2
          have e1 : is_utf8_go off (b :: rest) = .invalid off (some 1) := by
            rw [igo_cons]; simp [h1, widthBadLow b h2 h1']
          have e2 : hoehrmann_go 0 off off (b :: rest) = .invalid off (some 1) :=
            hgo_rej _ _ _ _ _ (decodeBadLow b h2 h1')
          rw [e1, e2]
          exact rfl
        by_cases h3 : b < 0xE0
        · -- width-2 lead
          have h2' : 0xC2 ≤ b := by omega
          have hw := widthTwo b h3 h2'
          have hd := decodeTwo b h3 h2'
          have hdn0 : decode 0 b ≠ 0 := by rw [hd]; decide
          have hdn12 : decode 0 b ≠ 12 := by rw [hd]; decide
          cases rest with
          | nil =>
            have e1 : is_utf8_go off [b] = .invalid off none := by
              rw [igo_cons]; simp [h1, hw]
            have e2 : hoehrmann_go 0 off off [b] = .invalid off none := by
              rw [hgo_mid _ _ _ _ _ hdn0 hdn12, hgo_nil_mid _ _ _ hdn0]
            rw [e1, e2]
            exact rfl
          | cons c rest2 =>
            have hc : c < 256 := hbr c (List.mem_cons_self _ _)
            have hr2 : ∀ x ∈ rest2, x < 256 := fun x hx => hbr x (List.mem_cons_of_mem _ hx)
            have hlen2 : rest2.length ≤ n := by simp at hlen; omega
            cases hcont : contOk c with
            | true =>
              have hdd := (decodeContT c hc hcont).1
              have e1 : is_utf8_go off (b :: c :: rest2) = is_utf8_go (off + 2) rest2 := by
                rw [igo_cons]; simp [h1, hw, hcont]
              have e2 : hoehrmann_go 0 off off (b :: c :: rest2)
                  = hoehrmann_go 0 (off + 1 + 1) (off + 1 + 1) rest2 := by
                rw [hgo_mid _ _ _ _ _ hdn0 hdn12, hd, hgo_acc _ _ _ _ _ hdd]
              rw [e1, e2]
              exact ih rest2 hlen2 hr2 (off + 2)
            | false =>
              have hdd := (decodeContF c hc hcont).1
              have e1 : is_utf8_go off (b :: c :: rest2) = .invalid off (some 1) := by
                rw [igo_cons]; simp [h1, hw, hcont]
              have e2 : hoehrmann_go 0 off off (b :: c :: rest2) = .invalid off (some 1) := by
                rw [hgo_mid _ _ _ _ _ hdn0 hdn12, hd, hgo_rej _ _ _ _ _ hdd]
              rw [e1, e2]
              exact rfl
        by_cases h4 : b < 0xF0
        · -- width-3 lead
          have h3' : 0xE0 ≤ b := by omega
          have hw := widthThree b h4 h3'
          have hlead := decodeThreeLead b h4 h3'
          cases rest with
          | nil =>
            have e1 : is_utf8_go off [b] = .invalid off none := by
              rw [igo_cons]; simp [h1, hw]
            have e2 : hoehrmann_go 0 off off [b] = .invalid off none := by
              rw [hgo_mid _ _ _ _ _ hlead.1 hlead.2, hgo_nil_mid _ _ _ hlead.1]
            rw [e1, e2]
            exact rfl
          | cons c rest2 =>
            have hc : c < 256 := hbr c (List.mem_cons_self _ _)
            have hr2 : ∀ x ∈ rest2, x < 256 := fun x hx => hbr x (List.mem_cons_of_mem _ hx)
            cases hv3 : valid3 b c with
            | false =>
              have hdc := decodeThreeF b h4 h3' c hc hv3
              have e1 : is_utf8_go off (b :: c :: rest2) = .invalid off (some 1) := by
                rw [igo_cons]; simp [h1, hw, hv3]
              have e2 : hoehrmann_go 0 off off (b :: c :: rest2) = .invalid off (some 1) := by
                rw [hgo_mid _ _ _ _ _ hlead.1 hlead.2, hgo_rej _ _ _ _ _ hdc]
              rw [e1, e2]
              exact rfl
            | true =>
              have hdc := decodeThreeT b h4 h3' c hc hv3
              have h24a : decode (decode 0 b) c ≠ 0 := by rw [hdc]; decide
              have h24b : decode (decode 0 b) c ≠ 12 := by rw [hdc]; decide
              cases rest2 with
              | nil =>
                have e1 : is_utf8_go off [b, c] = .invalid off none := by
                  rw [igo_cons]; simp [h1, hw, hv3]
                have e2 : hoehrmann_go 0 off off [b, c] = .invalid off none := by
                  rw [hgo_mid _ _ _ _ _ hlead.1 hlead.2, hgo_mid _ _ _ _ _ h24a h24b,
                      hgo_nil_mid _ _ _ h24a]
                rw [e1, e2]
                exact rfl
              | cons d rest3 =>
                have hd256 : d < 256 := hr2 d (List.mem_cons_self _ _)
                have hr3 : ∀ x ∈ rest3, x < 256 := fun x hx => hr2 x (List.mem_cons_of_mem _ hx)
                have hlen3 : rest3.length ≤ n := by simp at hlen; omega
                cases hcd : contOk d with
                | true =>
                  have hdd := (decodeContT d hd256 hcd).1
                  have e1 : is_utf8_go off (b :: c :: d :: rest3)
                      = is_utf8_go (off + 3) rest3 := by
                    rw [igo_cons]; simp [h1, hw, hv3, hcd]
                  have e2 : hoehrmann_go 0 off off (b :: c :: d :: rest3)
                      = hoehrmann_go 0 (off + 1 + 1 + 1) (off + 1 + 1 + 1) rest3 := by
                    rw [hgo_mid _ _ _ _ _ hlead.1 hlead.2, hgo_mid _ _ _ _ _ h24a h24b, hdc,
                        hgo_acc _ _ _ _ _ hdd]
                  rw [e1, e2]
                  exact ih rest3 hlen3 hr3 (off + 3)
                | false =>
                  have hdd := (decodeContF d hd256 hcd).1
                  have e1 : is_utf8_go off (b :: c :: d :: rest3) = .invalid off (some 2) := by
                    rw [igo_cons]; simp [h1, hw, hv3, hcd]
                  have e2 : hoehrmann_go 0 off off (b :: c :: d :: rest3)
                      = .invalid off (some 1) := by
                    rw [hgo_mid _ _ _ _ _ hlead.1 hlead.2, hgo_mid _ _ _ _ _ h24a h24b, hdc,
                        hgo_rej _ _ _ _ _ hdd]
                  rw [e1, e2]
                  exact rfl
        by_cases h5 : b < 0xF5
        · -- width-4 lead
          have h4' : 0xF0 ≤ b := by omega
          have hw := widthFour b h5 h4'
          have hlead := decodeFourLead b h5 h4'
          cases rest with
          | nil =>
            have e1 : is_utf8_go off [b] = .invalid off none := by
              rw [igo_cons]; simp [h1, hw]
            have e2 : hoehrmann_go 0 off off [b] = .invalid off none := by
              rw [hgo_mid _ _ _ _ _ hlead.1 hlead.2, hgo_nil_mid _ _ _ hlead.1]
            rw [e1, e2]
            exact rfl
          | cons c rest2 =>
            have hc : c < 256 := hbr c (List.mem_cons_self _ _)
            have hr2 : ∀ x ∈ rest2, x < 256 := fun x hx => hbr x (List.mem_cons_of_mem _ hx)
            cases hv4 : valid4 b c with
            | false =>
              have hdc := decodeFourF b h5 h4' c hc hv4
              have e1 : is_utf8_go off (b :: c :: rest2) = .invalid off (some 1) := by
                rw [igo_cons]; simp [h1, hw, hv4]
              have e2 : hoehrmann_go 0 off off (b :: c :: rest2) = .invalid off (some 1) := by
                rw [hgo_mid _ _ _ _ _ hlead.1 hlead.2, hgo_rej _ _ _ _ _ hdc]
              rw [e1, e2]
              exact rfl
            | true =>
              have hdc := decodeFourT b h5 h4' c hc hv4
              have h36a : decode (decode 0 b) c ≠ 0 := by rw [hdc]; decide
              have h36b : decode (decode 0 b) c ≠ 12 := by rw [hdc]; decide
              cases rest2 with
              | nil =>
                have e1 : is_utf8_go off [b, c] = .invalid off none := by
                  rw [igo_cons]; simp [h1, hw, hv4]
                have e2 : hoehrmann_go 0 off off [b, c] = .invalid off none := by
                  rw [hgo_mid _ _ _ _ _ hlead.1 hlead.2, hgo_mid _ _ _ _ _ h36a h36b,
                      hgo_nil_mid _ _ _ h36a]
                rw [e1, e2]
                exact rfl
              | cons d rest3 =>
                have hd256 : d < 256 := hr2 d (List.mem_cons_self _ _)
                have hr3 : ∀ x ∈ rest3, x < 256 := fun x hx => hr2 x (List.mem_cons_of_mem _ hx)
                cases hcd : contOk d with
                | false =>
                  have hdd := (decodeContF d hd256 hcd).2
                  have e1 : is_utf8_go off (b :: c :: d :: rest3) = .invalid off (some 2) := by
                    rw [igo_cons]; simp [h1, hw, hv4, hcd]
                  have e2 : hoehrmann_go 0 off off (b :: c :: d :: rest3)
                      = .invalid off (some 1) := by
                    rw [hgo_mid _ _ _ _ _ hlead.1 hlead.2, hgo_mid _ _ _ _ _ h36a h36b, hdc,
                        hgo_rej _ _ _ _ _ hdd]
                  rw [e1, e2]
                  exact rfl
                | true =>
                  have hdd := (decodeContT d hd256 hcd).2
                  have h24a : decode 36 d ≠ 0 := by rw [hdd]; decide
                  have h24b : decode 36 d ≠ 12 := by rw [hdd]; decide
                  cases rest3 with
                  | nil =>
                    have e1 : is_utf8_go off [b, c, d] = .invalid off none := by
                      rw [igo_cons]; simp [h1, hw, hv4, hcd]
                    have e2 : hoehrmann_go 0 off off [b, c, d] = .invalid off none := by
                      rw [hgo_mid _ _ _ _ _ hlead.1 hlead.2, hgo_mid _ _ _ _ _ h36a h36b, hdc,
                          hgo_mid _ _ _ _ _ h24a h24b, hgo_nil_mid _ _ _ h24a]
                    rw [e1, e2]
                    exact rfl
                  | cons e rest4 =>
                    have he256 : e < 256 := hr3 e (List.mem_cons_self _ _)
                    have hr4 : ∀ x ∈ rest4, x < 256 :=
                      fun x hx => hr3 x (List.mem_cons_of_mem _ hx)
                    have hlen4 : rest4.length ≤ n := by simp at hlen; omega
                    cases hce : contOk e with
                    | true =>
                      have hde := (decodeContT e he256 hce).1
                      have e1 : is_utf8_go off (b :: c :: d :: e :: rest4)
                          = is_utf8_go (off + 4) rest4 := by
                        rw [igo_cons]; simp [h1, hw, hv4, hcd, hce]
                      have e2 : hoehrmann_go 0 off off (b :: c :: d :: e :: rest4)
                          = hoehrmann_go 0 (off + 1 + 1 + 1 + 1) (off + 1 + 1 + 1 + 1) rest4 := by
                        rw [hgo_mid _ _ _ _ _ hlead.1 hlead.2, hgo_mid _ _ _ _ _ h36a h36b, hdc,
                            hgo_mid _ _ _ _ _ h24a h24b, hdd, hgo_acc _ _ _ _ _ hde]
                      rw [e1, e2]
                      exact ih rest4 hlen4 hr4 (off + 4)
                    | false =>
                      have hde := (decodeContF e he256 hce).1
                      have e1 : is_utf8_go off (b :: c :: d :: e :: rest4)
                          = .invalid off (some 3) := by
                        rw [igo_cons]; simp [h1, hw, hv4, hcd, hce]
                      have e2 : hoehrmann_go 0 off off (b :: c :: d :: e :: rest4)
                          = .invalid off (some 1) := by
                        rw [hgo_mid _ _ _ _ _ hlead.1 hlead.2, hgo_mid _ _ _ _ _ h36a h36b, hdc,
                            hgo_mid _ _ _ _ _ h24a h24b, hdd, hgo_rej _ _ _ _ _ hde]
                      rw [e1, e2]
                      exact rfl
        · -- invalid lead byte at or above 0xF5
          have h5' : 0xF5 ≤ b := by omega
          have e1 : is_utf8_go off (b :: rest) = .invalid off (some 1) := by
            rw [igo_cons]; simp [h1, widthBadHigh b hb0 h5']
          have e2 : hoehrmann_go 0 off off (b :: rest) = .invalid off (some 1) :=
            hgo_rej _ _ _ _ _ (decodeBadHigh b hb0 h5')
          rw [e1, e2]
          exact rfl

theorem agree_full (v : List Nat) (hv : ∀ b ∈ v, b < 256) :
    agreeVut (is_utf8 v) (hoehrmann_is_utf8 v) :=
  agree_aux v.length v le_rfl hv 0

/-- C1: for every byte sequence, the grammar-based validator (`lib.rs is_utf8`)
and the DFA validator (`hoehrmann.rs is_utf8`) return the same overall verdict,
and when both return an error their `valid_up_to` fields are equal. -/
theorem grammar_dfa_oracle_agree (v : List Nat) (hv : ∀ b ∈ v, b < 256) :
    (is_utf8 v = .ok ↔ hoehrmann_is_utf8 v = .ok) ∧
    (∀ k1 e1 k2 e2, is_utf8 v = .invalid k1 e1 → hoehrmann_is_utf8 v = .invalid k2 e2 →
      k1 = k2) := by
  have h := agree_full v hv
  constructor
  · constructor
    · intro h1
      rw [h1] at h
      cases h2 : hoehrmann_is_utf8 v with
      | ok => rfl
      | invalid k e => rw [h2] at h; exact h.elim
    · intro h2
      rw [h2] at h
      cases h1 : is_utf8 v with
      | ok => rfl
      | invalid k e => rw [h1] at h; exact h.elim
  · intro k1 e1 k2 e2 hh1 hh2
    rw [hh1, hh2] at h
    exact h

theorem grammar_dfa_oracle_agree_witness :
    (∀ b ∈ [0x61, 0xED, 0xA0, 0x80], b < 256) ∧
    ((is_utf8 [0x61, 0xED, 0xA0, 0x80] = .ok ↔
        hoehrmann_is_utf8 [0x61, 0xED, 0xA0, 0x80] = .ok) ∧
     (∀ k1 e1 k2 e2, is_utf8 [0x61, 0xED, 0xA0, 0x80] = .invalid k1 e1 →
        hoehrmann_is_utf8 [0x61, 0xED, 0xA0, 0x80] = .invalid k2 e2 → k1 = k2)) :=
  ⟨by decide, grammar_dfa_oracle_agree [0x61, 0xED, 0xA0, 0x80] (by decide)⟩

theorem widthBig : ∀ b, 0xF5 ≤ b → utf8CharWidth b = 0 := by
  intro b h
  by_cases hb : b < 256
  · exact widthBadHigh b hb h
  · have hlen : UTF8_CHAR_WIDTH.length = 256 := by rfl
    unfold utf8CharWidth
    exact List.getD_eq_default _ _ (by omega)

/-- Validity of the prefix in front of a reported error, grammar validator. -/
theorem take_of_invalid : ∀ (n : Nat) (v : List Nat), v.length ≤ n → ∀ off k e,
    is_utf8_go off v = .invalid k e → off ≤ k ∧ is_utf8_go off (v.take (k - off)) = .ok := by
  intro n
  induction n with
  | zero =>
    intro v hlen off k e h
    have hv : v = [] := List.eq_nil_of_length_eq_zero (by omega)
    subst hv
    simp [is_utf8_go] at h
  | succ n ih =>
    intro v hlen off k e h
    cases v with
    | nil => simp [is_utf8_go] at h
    | cons b rest =>
      rw [igo_cons] at h
      by_cases h1 : b < 128
      · simp [h1] at h
        obtain ⟨hle, hok⟩ := ih rest (by simp at hlen; omega) (off + 1) k e h
        refine ⟨by omega, ?_⟩
        obtain ⟨m, hm⟩ : ∃ m, k - off = m + 1 := ⟨k - off - 1, by omega⟩
        rw [hm, List.take_succ_cons, igo_cons]
        simp [h1]
        rw [(by omega : m = k - (off + 1))]
        exact hok
      · by_cases h2 : b < 0xC2
        · have hw := widthBadLow b h2 (by omega)
          simp [h1, hw] at h
          refine ⟨by omega, ?_⟩
          rw [(by omega : k - off = 0)]
          simp [is_utf8_go]
        by_cases h3 : b < 0xE0
        · have hw := widthTwo b h3 (by omega)
          cases rest with
          | nil =>
            simp [h1, hw] at h
            refine ⟨by omega, ?_⟩
            rw [(by omega : k - off = 0)]
            simp [is_utf8_go]
          | cons c rest2 =>
            cases hcont : contOk c with
            | false =>
              simp [h1, hw, hcont] at h
              refine ⟨by omega, ?_⟩
              rw [(by omega : k - off = 0)]
              simp [is_utf8_go]
            | true =>
              simp [h1, hw, hcont] at h
              obtain ⟨hle, hok⟩ := ih rest2 (by simp at hlen; omega) (off + 2) k e h
              refine ⟨by omega, ?_⟩
              obtain ⟨m, hm⟩ : ∃ m, k - off = m + 2 := ⟨k - off - 2, by omega⟩
              rw [hm, List.take_succ_cons, List.take_succ_cons, igo_cons]
              simp [h1, hw, hcont]
              rw [(by omega : m = k - (off + 2))]
              exact hok
        by_cases h4 : b < 0xF0
        · have hw := widthThree b h4 (by omega)
          cases rest with
          | nil =>
            simp [h1, hw] at h
            refine ⟨by omega, ?_⟩
            rw [(by omega : k - off = 0)]
            simp [is_utf8_go]
          | cons c rest2 =>
            cases hv3 : valid3 b c with
            | false =>
              simp [h1, hw, hv3] at h
              refine ⟨by omega, ?_⟩
              rw [(by omega : k - off = 0)]
              simp [is_utf8_go]
            | true =>
              cases rest2 with
              | nil =>
                simp [h1, hw, hv3] at h
                refine ⟨by omega, ?_⟩
                rw [(by omega : k - off = 0)]
                simp [is_utf8_go]
              | cons d rest3 =>
                cases hcd : contOk d with
                | false =>
                  simp [h1, hw, hv3, hcd] at h
                  refine ⟨by omega, ?_⟩
                  rw [(by omega : k - off = 0)]
                  simp [is_utf8_go]
                | true =>
                  simp [h1, hw, hv3, hcd] at h
                  obtain ⟨hle, hok⟩ := ih rest3 (by simp at hlen; omega) (off + 3) k e h
                  refine ⟨by omega, ?_⟩
                  obtain ⟨m, hm⟩ : ∃ m, k - off = m + 3 := ⟨k - off - 3, by omega⟩
                  rw [hm, List.take_succ_cons, List.take_succ_cons, List.take_succ_cons,
                      igo_cons]
                  simp [h1, hw, hv3, hcd]
                  rw [(by omega : m = k - (off + 3))]
                  exact hok
        by_cases h5 : b < 0xF5
        · have hw := widthFour b h5 (by omega)
          cases rest with
          | nil =>
            simp [h1, hw] at h
            refine ⟨by omega, ?_⟩
            rw [(by omega : k - off = 0)]
            simp [is_utf8_go]
          | cons c rest2 =>
            cases hv4 : valid4 b c with
            | false =>
              simp [h1, hw, hv4] at h
              refine ⟨by omega, ?_⟩
              rw [(by omega : k - off = 0)]
              simp [is_utf8_go]
            | true =>
              cases rest2 with
              | nil =>
                simp [h1, hw, hv4] at h
                refine ⟨by omega, ?_⟩
                rw [(by omega : k - off = 0)]
                simp [is_utf8_go]
              | cons d rest3 =>
                cases hcd : contOk d with
                | false =>
                  simp [h1, hw, hv4, hcd] at h
                  refine ⟨by omega, ?_⟩
                  rw [(by omega : k - off = 0)]
                  simp [is_utf8_go]
                | true =>
                  cases rest3 with
                  | nil =>
                    simp [h1, hw, hv4, hcd] at h
                    refine ⟨by omega, ?_⟩
                    rw [(by omega : k - off = 0)]
                    simp [is_utf8_go]
                  | cons e2 rest4 =>
                    cases hce : contOk e2 with
                    | false =>
                      simp [h1, hw, hv4, hcd, hce] at h
                      refine ⟨by omega, ?_⟩
                      rw [(by omega : k - off = 0)]
                      simp [is_utf8_go]
                    | true =>
                      simp [h1, hw, hv4, hcd, hce] at h
                      obtain ⟨hle, hok⟩ := ih rest4 (by simp at hlen; omega) (off + 4) k e h
                      refine ⟨by omega, ?_⟩
                      obtain ⟨m, hm⟩ : ∃ m, k - off = m + 4 := ⟨k - off - 4, by omega⟩
                      rw [hm, List.take_succ_cons, List.take_succ_cons, List.take_succ_cons,
                          List.take_succ_cons, igo_cons]
                      simp [h1, hw, hv4, hcd, hce]
                      rw [(by omega : m = k - (off + 4))]
                      exact hok
        · have hw := widthBig b (by omega)
          simp [h1, hw] at h
          refine ⟨by omega, ?_⟩
          rw [(by omega : k - off = 0)]
          simp [is_utf8_go]

/-- A prefix of a sequence the grammar validator accepts is never rejected
with `error_len = Some _`; truncation is the only possible failure. -/
theorem ok_take_aux : ∀ (n : Nat) (v : List Nat), v.length ≤ n → ∀ off,
    is_utf8_go off v = .ok → ∀ m, is_utf8_go off (v.take m) = .ok ∨
      ∃ u, is_utf8_go off (v.take m) = .invalid u none := by
  intro n
  induction n with
  | zero =>
    intro v hlen off _ m
    have hv : v = [] := List.eq_nil_of_length_eq_zero (by omega)
    subst hv
    exact Or.inl (by simp [is_utf8_go])
  | succ n ih =>
    intro v hlen off hok m
    cases v with
    | nil => exact Or.inl (by simp [is_utf8_go])
    | cons b rest =>
      cases m with
      | zero => exact Or.inl (by simp [is_utf8_go])
      | succ m1 =>
        rw [igo_cons] at hok
        by_cases h1 : b < 128
        · simp [h1] at hok
          have hih := ih rest (by simp at hlen; omega) (off + 1) hok m1
          rw [List.take_succ_cons, igo_cons]
          simp [h1]
          exact hih
        · by_cases h2 : b < 0xC2
          · simp [h1, widthBadLow b h2 (by omega)] at hok
          by_cases h3 : b < 0xE0
          · have hw := widthTwo b h3 (by omega)
            cases rest with
            | nil => simp [h1, hw] at hok
            | cons c rest2 =>
              cases hcont : contOk c with
              | false => simp [h1, hw, hcont] at hok
              | true =>
                simp [h1, hw, hcont] at hok
                cases m1 with
                | zero =>
                  refine Or.inr ⟨off, ?_⟩
                  rw [List.take_succ_cons, List.take_zero, igo_cons]
                  simp [h1, hw]
                | succ m2 =>
                  have hih := ih rest2 (by simp at hlen; omega) (off + 2) hok m2
                  rw [List.take_succ_cons, List.take_succ_cons, igo_cons]
                  simp [h1, hw, hcont]
                  exact hih
          by_cases h4 : b < 0xF0
          · have hw := widthThree b h4 (by omega)
            cases rest with
            | nil => simp [h1, hw] at hok
            | cons c rest2 =>
              cases hv3 : valid3 b c with
              | false => simp [h1, hw, hv3] at hok
              | true =>
                cases rest2 with
                | nil => simp [h1, hw, hv3] at hok
                | cons d rest3 =>
                  cases hcd : contOk d with
                  | false => simp [h1, hw, hv3, hcd] at hok
                  | true =>
                    simp [h1, hw, hv3, hcd] at hok
                    cases m1 with
                    | zero =>
                      refine Or.inr ⟨off, ?_⟩
                      rw [List.take_succ_cons, List.take_zero, igo_cons]
                      simp [h1, hw]
                    | succ m2 =>
                      cases m2 with
                      | zero =>
                        refine Or.inr ⟨off, ?_⟩
                        rw [List.take_succ_cons, List.take_succ_cons, List.take_zero, igo_cons]
                        simp [h1, hw, hv3]
                      | succ m3 =>
                        have hih := ih rest3 (by simp at hlen; omega) (off + 3) hok m3
                        rw [List.take_succ_cons, List.take_succ_cons, List.take_succ_cons,
                            igo_cons]
                        simp [h1, hw, hv3, hcd]
                        exact hih
          by_cases h5 : b < 0xF5
          · have hw := widthFour b h5 (by omega)
            cases rest with
            | nil => simp [h1, hw] at hok
            | cons c rest2 =>
              cases hv4 : valid4 b c with
              | false => simp [h1, hw, hv4] at hok
              | true =>
                cases rest2 with
                | nil => simp [h1, hw, hv4] at hok
                | cons d rest3 =>
                  cases hcd : contOk d with
                  | false => simp [h1, hw, hv4, hcd] at hok
                  | true =>
                    cases rest3 with
                    | nil => simp [h1, hw, hv4, hcd] at hok
                    | cons e2 rest4 =>
                      cases hce : contOk e2 with
                      | false => simp [h1, hw, hv4, hcd, hce] at hok
                      | true =>
                        simp [h1, hw, hv4, hcd, hce] at hok
                        cases m1 with
                        | zero =>
                          refine Or.inr ⟨off, ?_⟩
                          rw [List.take_succ_cons, List.take_zero, igo_cons]
                          simp [h1, hw]
                        | succ m2 =>
                          cases m2 with
                          | zero =>
                            refine Or.inr ⟨off, ?_⟩
                            rw [List.take_succ_cons, List.take_succ_cons, List.take_zero,
                                igo_cons]
                            simp [h1, hw, hv4]
                          | succ m3 =>
                            cases m3 with
                            | zero =>
                              refine Or.inr ⟨off, ?_⟩
                              rw [List.take_succ_cons, List.take_succ_cons,
                                  List.take_succ_cons, List.take_zero, igo_cons]
                              simp [h1, hw, hv4, hcd]
                            | succ m4 =>
                              have hih := ih rest4 (by simp at hlen; omega) (off + 4) hok m4
                              rw [List.take_succ_cons, List.take_succ_cons,
                                  List.take_succ_cons, List.take_succ_cons, igo_cons]
                              simp [h1, hw, hv4, hcd, hce]
                              exact hih
          · simp [h1, widthBig b (by omega)] at hok

/-- C5: when either validator reports an error with `valid_up_to = k`, the
first `k` bytes form a complete valid UTF-8 sequence for that validator. -/
theorem valid_up_to_prefix_ok (v : List Nat) (hv : ∀ b ∈ v, b < 256) :
    (∀ k e, is_utf8 v = .invalid k e → is_utf8 (v.take k) = .ok) ∧
    (∀ k e, hoehrmann_is_utf8 v = .invalid k e → hoehrmann_is_utf8 (v.take k) = .ok) := by
  have hg : ∀ k e, is_utf8 v = .invalid k e → is_utf8 (v.take k) = .ok := by
    intro k e h
    have := take_of_invalid v.length v le_rfl 0 k e h
    rw [Nat.sub_zero] at this
    exact this.2
  refine ⟨hg, ?_⟩
  intro k e h
  have ha := agree_full v hv
  cases hgv : is_utf8 v with
  | ok => rw [hgv, h] at ha; exact ha.elim
  | invalid k2 e2 =>
    rw [hgv, h] at ha
    have hk : k2 = k := ha
    subst hk
    have hpre : is_utf8 (v.take k2) = .ok := hg k2 e2 hgv
    have ha2 := agree_full (v.take k2) (fun b hb => hv b (List.take_subset _ _ hb))
    rw [hpre] at ha2
    cases hh : hoehrmann_is_utf8 (v.take k2) with
    | ok => rfl
    | invalid k3 e3 => rw [hh] at ha2; exact ha2.elim

theorem valid_up_to_prefix_ok_witness :
    (∀ b ∈ [0x41, 0x42, 0xC2, 0x80, 0xFF], b < 256) ∧
    ((∀ k e, is_utf8 [0x41, 0x42, 0xC2, 0x80, 0xFF] = .invalid k e →
        is_utf8 ([0x41, 0x42, 0xC2, 0x80, 0xFF].take k) = .ok) ∧
     (∀ k e, hoehrmann_is_utf8 [0x41, 0x42, 0xC2, 0x80, 0xFF] = .invalid k e →
        hoehrmann_is_utf8 ([0x41, 0x42, 0xC2, 0x80, 0xFF].take k) = .ok)) :=
  ⟨by decide, valid_up_to_prefix_ok [0x41, 0x42, 0xC2, 0x80, 0xFF] (by decide)⟩

/-- C6: prefixes of a sequence the grammar validator accepts are never
rejected as definitively invalid; only `error_len = none` may occur. -/
theorem valid_take_never_definitive (v : List Nat) (k : Nat) (hok : is_utf8 v = .ok)
    (hk : k ≤ v.length) :
    is_utf8 (v.take k) = .ok ∨ ∃ u, is_utf8 (v.take k) = .invalid u none :=
  ok_take_aux v.length v le_rfl 0 hok k

theorem valid_take_never_definitive_witness :
    is_utf8 [0xE0, 0xA0, 0x80] = .ok ∧ (2 : Nat) ≤ [0xE0, 0xA0, 0x80].length ∧
    (is_utf8 ([0xE0, 0xA0, 0x80].take 2) = .ok ∨
      ∃ u, is_utf8 ([0xE0, 0xA0, 0x80].take 2) = .invalid u none) :=
  ⟨by decide, by decide,
    valid_take_never_definitive [0xE0, 0xA0, 0x80] 2 (by decide) (by decide)⟩

theorem scalar_go_ok : ∀ (v : List Nat) (i : Nat),
    is_ascii_scalar_go i v = .ok () ↔ ∀ b ∈ v, b ≤ 127 := by
  intro v
  induction v with
  | nil => intro i; simp [is_ascii_scalar_go]
  | cons b rest ih =>
    intro i
    by_cases hb : b ≤ 127
    · simp [is_ascii_scalar_go, hb, ih]
    · simp [is_ascii_scalar_go, hb]

theorem scalar_go_err : ∀ (v : List Nat) (i e : Nat), is_ascii_scalar_go i v = .error e →
    i ≤ e ∧ e - i < v.length ∧ 128 ≤ v.getD (e - i) 0 ∧
      ∀ j, j < e - i → v.getD j 0 ≤ 127 := by
  intro v
  induction v with
  | nil => intro i e h; simp [is_ascii_scalar_go] at h
  | cons b rest ih =>
    intro i e h
    by_cases hb : b ≤ 127
    · simp only [is_ascii_scalar_go, if_pos hb] at h
      obtain ⟨h1, h2, h3, h4⟩ := ih (i + 1) e h
      refine ⟨by omega, by simp; omega, ?_, ?_⟩
      · rw [(by omega : e - i = (e - (i + 1)) + 1)]
        simpa using h3
      · intro j hj
        cases j with
        | zero => simpa using hb
        | succ j2 =>
          have hj2 : j2 < e - (i + 1) := by omega
          simpa using h4 j2 hj2
    · simp only [is_ascii_scalar_go, if_neg hb] at h
      have he : i = e := by simpa using h
      subst he
      refine ⟨le_rfl, by simp, ?_, ?_⟩
      · simpa using by omega
      · intro j hj
        omega

/-- C7: `is_ascii_scalar` returns Ok exactly when every byte has its high
bit clear, and otherwise errors with the index of the first high-bit byte. -/
theorem is_ascii_scalar_spec (x : List Nat) (hx : ∀ b ∈ x, b < 256) :
    (is_ascii_scalar x = .ok () ↔ ∀ b ∈ x, b < 128) ∧
    (∀ i, is_ascii_scalar x = .error i →
      i < x.length ∧ 128 ≤ x.getD i 0 ∧ ∀ j, j < i → x.getD j 0 < 128) ∧
    ((¬ ∀ b ∈ x, b < 128) → ∃ i, is_ascii_scalar x = .error i) := by
  refine ⟨?_, ?_, ?_⟩
  · rw [show is_ascii_scalar x = is_ascii_scalar_go 0 x from rfl, scalar_go_ok]
    constructor
    · intro h b hb; have := h b hb; omega
    · intro h b hb; have := h b hb; omega
  · intro i h
    obtain ⟨h1, h2, h3, h4⟩ := scalar_go_err x 0 i h
    rw [Nat.sub_zero] at h2 h3 h4
    refine ⟨h2, h3, ?_⟩
    intro j hj
    have := h4 j hj
    omega
  · intro h
    cases hres : is_ascii_scalar x with
    | ok u =>
      cases u
      rw [show is_ascii_scalar x = is_ascii_scalar_go 0 x from rfl, scalar_go_ok] at hres
      exact absurd (fun b hb => by have := hres b hb; omega) h
    | error e => exact ⟨e, rfl⟩

theorem is_ascii_scalar_spec_witness :
    (∀ b ∈ [0x41, 0x42, 0x80, 0x43], b < 256) ∧
    ((is_ascii_scalar [0x41, 0x42, 0x80, 0x43] = .ok () ↔
        ∀ b ∈ [0x41, 0x42, 0x80, 0x43], b < 128) ∧
     (∀ i, is_ascii_scalar [0x41, 0x42, 0x80, 0x43] = .error i →
        i < [0x41, 0x42, 0x80, 0x43].length ∧ 128 ≤ [0x41, 0x42, 0x80, 0x43].getD i 0 ∧
          ∀ j, j < i → [0x41, 0x42, 0x80, 0x43].getD j 0 < 128) ∧
     ((¬ ∀ b ∈ [0x41, 0x42, 0x80, 0x43], b < 128) →
        ∃ i, is_ascii_scalar [0x41, 0x42, 0x80, 0x43] = .error i)) :=
  ⟨by decide, is_ascii_scalar_spec [0x41, 0x42, 0x80, 0x43] (by decide)⟩

theorem scalar_go_shift : ∀ (v : List Nat) (i : Nat),
    is_ascii_scalar_go i v = (is_ascii_scalar_go 0 v).mapError (· + i) := by
  intro v
  induction v with
  | nil => intro i; simp [is_ascii_scalar_go, Except.mapError]
  | cons b rest ih =>
    intro i
    by_cases hb : b ≤ 127
    · simp only [is_ascii_scalar_go, if_pos hb]
      rw [ih (i + 1), ih 1]
      cases is_ascii_scalar_go 0 rest with
      | ok u => simp [Except.mapError]
      | error e => simp [Except.mapError]; omega
    · simp [is_ascii_scalar_go, hb, Except.mapError]

theorem scalar_go_skip : ∀ (t1 t2 : List Nat) (i : Nat), (∀ b ∈ t1, b ≤ 127) →
    is_ascii_scalar_go i (t1 ++ t2) = is_ascii_scalar_go (i + t1.length) t2 := by
  intro t1
  induction t1 with
  | nil => intro t2 i _; simp
  | cons b rest ih =>
    intro t2 i h
    have hb : b ≤ 127 := h b (List.mem_cons_self _ _)
    simp only [List.cons_append, is_ascii_scalar_go, if_pos hb]
    rw [show rest.append t2 = rest ++ t2 from rfl,
        ih t2 (i + 1) (fun x hx => h x (List.mem_cons_of_mem _ hx))]
    congr 1
    simp
    omega

theorem landFact : ∀ b, b < 256 → (b &&& 128 == 0) = true → b ≤ 127 := by decide

theorem exceptMatchMapError (x : Except Nat Unit) (i : Nat) :
    (match x with
      | .ok _ => Except.ok ()
      | .error e => Except.error (e + i)) = x.mapError (· + i) := by
  cases x with
  | ok u => cases u; rfl
  | error e => rfl

theorem vector_go_scalar : ∀ (s : List Nat), (∀ b ∈ s, b < 256) → ∀ (fuel i : Nat),
    s.length - i ≤ fuel →
    (match is_ascii_scalar (s.drop (is_ascii_vector128_go s i)) with
      | .ok _ => Except.ok ()
      | .error e => Except.error (e + is_ascii_vector128_go s i)) =
    (is_ascii_scalar (s.drop i)).mapError (· + i) := by
  intro s hs fuel
  induction fuel with
  | zero =>
    intro i hfuel
    have hcond : ¬ (i + 32 ≤ s.length) := by omega
    rw [is_ascii_vector128_go, dif_neg hcond]
    exact exceptMatchMapError _ _
  | succ fuel ih =>
    intro i hfuel
    by_cases hcond : i + 32 ≤ s.length
    · by_cases hall : ((s.drop i).take 32).all (fun b => b &&& 128 == 0) = true
      · rw [is_ascii_vector128_go, dif_pos hcond, if_pos hall]
        rw [ih (i + 32) (by omega)]
        have hdd : (s.drop i).drop 32 = s.drop (i + 32) := by rw [List.drop_drop]
        have hsplit : s.drop i = (s.drop i).take 32 ++ s.drop (i + 32) := by
          conv_lhs => rw [← List.take_append_drop 32 (s.drop i)]
          rw [hdd]
        have hascii : ∀ b ∈ (s.drop i).take 32, b ≤ 127 := by
          intro b hb
          have hmem : b ∈ s := List.drop_subset i s (List.take_subset _ _ hb)
          exact landFact b (hs b hmem) (List.all_eq_true.mp hall b hb)
        have hlen32 : ((s.drop i).take 32).length = 32 := by
          rw [List.length_take, List.length_drop]
          omega
        show (is_ascii_scalar_go 0 (s.drop (i + 32))).mapError (· + (i + 32)) =
          (is_ascii_scalar_go 0 (s.drop i)).mapError (· + i)
        rw [hsplit, scalar_go_skip _ _ 0 hascii, hlen32, Nat.zero_add,
            scalar_go_shift (s.drop (i + 32)) 32]
        cases is_ascii_scalar_go 0 (s.drop (i + 32)) with
        | ok u => cases u; rfl
        | error e => simp [Except.mapError]; omega
      · rw [is_ascii_vector128_go, dif_pos hcond, if_neg hall]
        exact exceptMatchMapError _ _
    · rw [is_ascii_vector128_go, dif_neg hcond]
      exact exceptMatchMapError _ _

/-- C8: the 128-bit-block scanner agrees with the scalar scanner on every
input, and its result is the scalar scan of the remainder at the block
loop's stopping offset, shifted by that offset. -/
theorem is_ascii_vector128_spec (x : List Nat) (hx : ∀ b ∈ x, b < 256) :
    is_ascii_vector128 x = is_ascii_scalar x ∧
    is_ascii_vector128 x = (is_ascii_scalar (x.drop (is_ascii_vector128_go x 0))).mapError
      (· + is_ascii_vector128_go x 0) := by
  have h2 : is_ascii_vector128 x = (is_ascii_scalar
      (x.drop (is_ascii_vector128_go x 0))).mapError (· + is_ascii_vector128_go x 0) :=
    exceptMatchMapError _ _
  refine ⟨?_, h2⟩
  have h0 : is_ascii_vector128 x = (is_ascii_scalar (x.drop 0)).mapError (· + 0) :=
    vector_go_scalar x hx x.length 0 (by omega)
  rw [List.drop_zero] at h0
  rw [h0]
  cases hr : is_ascii_scalar x with
  | ok u => cases u; rfl
  | error e => simp [Except.mapError]

theorem is_ascii_vector128_spec_witness :
    (∀ b ∈ [0x41, 0x42, 0x80, 0x43], b < 256) ∧
    (is_ascii_vector128 [0x41, 0x42, 0x80, 0x43] = is_ascii_scalar [0x41, 0x42, 0x80, 0x43] ∧
     is_ascii_vector128 [0x41, 0x42, 0x80, 0x43] =
       (is_ascii_scalar ([0x41, 0x42, 0x80, 0x43].drop
           (is_ascii_vector128_go [0x41, 0x42, 0x80, 0x43] 0))).mapError
         (· + is_ascii_vector128_go [0x41, 0x42, 0x80, 0x43] 0)) :=
  ⟨by decide, is_ascii_vector128_spec [0x41, 0x42, 0x80, 0x43] (by decide)⟩

/-- C9: literal boundary verdicts of the grammar-based validator. -/
theorem literal_verdicts :
    is_utf8 [0xC2, 0x80] = .ok ∧
    is_utf8 [0xC0, 0x80] = .invalid 0 (some 1) ∧
    is_utf8 [0xE0, 0x80, 0x80] = .invalid 0 (some 1) ∧
    is_utf8 [0xED, 0xA0, 0x80] = .invalid 0 (some 1) ∧
    is_utf8 [0xF4, 0x8F, 0xBF, 0xBF] = .ok ∧
    is_utf8 [0xF4, 0x90, 0x80, 0x80] = .invalid 0 (some 1) ∧
    is_utf8 [0xC2] = .invalid 0 none := by decide

theorem decodeClosure (t : Nat) (ht : t ∈ dfaReachable) (b : Nat) (hb : b < 256) :
    decode t b = 12 ∨ decode t b ∈ dfaReachable := by
  have hmem : t = 0 ∨ t = 24 ∨ t = 36 ∨ t = 48 ∨ t = 60 ∨ t = 72 ∨ t = 84 ∨ t = 96 := by
    simpa [dfaReachable] using ht
  have h48 : decode 0 0xE0 = 48 := decodeThreeE0
  have h60 : decode 0 0xED = 60 := decodeThreeED
  have h72 : decode 0 0xF0 = 72 := decodeFourF0
  have h84 : decode 0 0xF1 = 84 := decodeFourMid 0xF1 (by omega) (by omega)
  have h96 : decode 0 0xF4 = 96 := decodeFourF4
  have h36 : decode 0 0xE1 = 36 := decodeThreeMid 0xE1 (by omega) (by omega)
    (by omega) (by omega)
  rcases hmem with h | h | h | h | h | h | h | h <;> subst h
  · -- state 0: case on the byte ranges
    by_cases hb1 : b < 128
    · right; rw [decodeAscii b hb1]; simp [dfaReachable]
    by_cases hb2 : b < 0xC2
    · left; exact decodeBadLow b hb2 (by omega)
    by_cases hb3 : b < 0xE0
    · right; rw [decodeTwo b hb3 (by omega)]; simp [dfaReachable]
    by_cases hb4 : b < 0xF0
    · by_cases he0 : b = 0xE0
      · subst he0; right; rw [decodeThreeE0]; simp [dfaReachable]
      by_cases hed : b = 0xED
      · subst hed; right; rw [decodeThreeED]; simp [dfaReachable]
      · right; rw [decodeThreeMid b hb4 (by omega) he0 hed]; simp [dfaReachable]
    by_cases hb5 : b < 0xF5
    · by_cases hf0 : b = 0xF0
      · subst hf0; right; rw [decodeFourF0]; simp [dfaReachable]
      by_cases hf4 : b = 0xF4
      · subst hf4; right; rw [decodeFourF4]; simp [dfaReachable]
      · right; rw [decodeFourMid b (by omega) (by omega)]; simp [dfaReachable]
    · left; exact decodeBadHigh b hb (by omega)
  · cases hcont : contOk b with
    | true => right; rw [(decodeContT b hb hcont).1]; simp [dfaReachable]
    | false => left; exact (decodeContF b hb hcont).1
  · cases hcont : contOk b with
    | true => right; rw [(decodeContT b hb hcont).2]; simp [dfaReachable]
    | false => left; exact (decodeContF b hb hcont).2
  · cases hv : valid3 0xE0 b with
    | true =>
      right
      have := decodeThreeT 0xE0 (by omega) (by omega) b hb hv
      rw [h48] at this
      rw [this]; simp [dfaReachable]
    | false =>
      left
      have := decodeThreeF 0xE0 (by omega) (by omega) b hb hv
      rw [h48] at this
      exact this
  · cases hv : valid3 0xED b with
    | true =>
      right
      have := decodeThreeT 0xED (by omega) (by omega) b hb hv
      rw [h60] at this
      rw [this]; simp [dfaReachable]
    | false =>
      left
      have := decodeThreeF 0xED (by omega) (by omega) b hb hv
      rw [h60] at this
      exact this
  · cases hv : valid4 0xF0 b with
    | true =>
      right
      have := decodeFourT 0xF0 (by omega) (by omega) b hb hv
      rw [h72] at this
      rw [this]; simp [dfaReachable]
    | false =>
      left
      have := decodeFourF 0xF0 (by omega) (by omega) b hb hv
      rw [h72] at this
      exact this
  · cases hv : valid4 0xF1 b with
    | true =>
      right
      have := decodeFourT 0xF1 (by omega) (by omega) b hb hv
      rw [h84] at this
      rw [this]; simp [dfaReachable]
    | false =>
      left
      have := decodeFourF 0xF1 (by omega) (by omega) b hb hv
      rw [h84] at this
      exact this
  · cases hv : valid4 0xF4 b with
    | true =>
      right
      have := decodeFourT 0xF4 (by omega) (by omega) b hb hv
      rw [h96] at this
      rw [this]; simp [dfaReachable]
    | false =>
      left
      have := decodeFourF 0xF4 (by omega) (by omega) b hb hv
      rw [h96] at this
      exact this

theorem visitedReachable : ∀ (v : List Nat), (∀ b ∈ v, b < 256) → ∀ s, s ∈ dfaReachable →
    ∀ t ∈ dfaStatesVisited s v, t ∈ dfaReachable := by
  intro v
  induction v with
  | nil =>
    intro _ s _ t ht
    simp [dfaStatesVisited] at ht
  | cons b rest ih =>
    intro hb s hs t ht
    have hb0 : b < 256 := hb b (List.mem_cons_self _ _)
    by_cases h12 : decode s b = 12
    · rw [dfaStatesVisited, if_pos h12] at ht
      simp at ht
      subst ht
      exact hs
    · rw [dfaStatesVisited, if_neg h12] at ht
      rcases List.mem_cons.mp ht with h | h
      · subst h; exact hs
      · have hnext : decode s b ∈ dfaReachable := by
          rcases decodeClosure s hs b hb0 with hx | hx
          · exact absurd hx h12
          · exact hx
        exact ih (fun x hx => hb x (List.mem_cons_of_mem _ hx)) (decode s b) hnext t h

/-- C10: on the reachable non-REJECT states, the unchecked table index of
`decode` stays below 364, `decode` lands on a reachable state or REJECT,
and every state the DFA loop passes to `decode` is reachable. -/
theorem dfa_decode_safety (x : List Nat) (hx : ∀ b ∈ x, b < 256) :
    (∀ s ∈ dfaReachable, ∀ b, b < 256 → 256 + s + UTF8D.getD b 0 < 364) ∧
    (∀ s ∈ dfaReachable, ∀ b, b < 256 → decode s b = 12 ∨ decode s b ∈ dfaReachable) ∧
    (∀ t ∈ dfaStatesVisited 0 x, t ∈ dfaReachable) := by
  refine ⟨?_, ?_, ?_⟩
  · intro s hs b hb
    have h1 := classAgrees b hb
    have h2 := classLt12 b hb
    have hsle : s ≤ 96 := by
      have : s = 0 ∨ s = 24 ∨ s = 36 ∨ s = 48 ∨ s = 60 ∨ s = 72 ∨ s = 84 ∨ s = 96 := by
        simpa [dfaReachable] using hs
      omega
    rw [h1]
    omega
  · intro s hs b hb
    exact decodeClosure s hs b hb
  · exact visitedReachable x hx 0 (by simp [dfaReachable])

theorem dfa_decode_safety_witness :
    (∀ b ∈ [0x41, 0xE2, 0x82, 0xAC, 0xFF], b < 256) ∧
    ((∀ s ∈ dfaReachable, ∀ b, b < 256 → 256 + s + UTF8D.getD b 0 < 364) ∧
     (∀ s ∈ dfaReachable, ∀ b, b < 256 → decode s b = 12 ∨ decode s b ∈ dfaReachable) ∧
     (∀ t ∈ dfaStatesVisited 0 [0x41, 0xE2, 0x82, 0xAC, 0xFF], t ∈ dfaReachable)) :=
  ⟨by decide, dfa_decode_safety [0x41, 0xE2, 0x82, 0xAC, 0xFF] (by decide)⟩

/-- C3: behaviour of the grammar validator on a unit whose leading byte has
width 3: the second byte must lie in the lead-dependent range, the third
must be a continuation byte; the error shapes are `Some 1`, `Some 2`, or
`none` for truncation, always with `valid_up_to` at the start of the unit. -/
theorem width3_unit_spec (off b : Nat) (rest : List Nat) (hb : b < 256)
    (hw : utf8CharWidth b = 3) (hr : ∀ x ∈ rest, x < 256) :
    (rest = [] → is_utf8_go off (b :: rest) = .invalid off none) ∧
    (∀ c rest2, rest = c :: rest2 →
      ((¬ ((b = 0xE0 ∧ 0xA0 ≤ c ∧ c ≤ 0xBF) ∨
           (0xE1 ≤ b ∧ b ≤ 0xEC ∧ 0x80 ≤ c ∧ c ≤ 0xBF) ∨
           (b = 0xED ∧ 0x80 ≤ c ∧ c ≤ 0x9F) ∨
           (0xEE ≤ b ∧ b ≤ 0xEF ∧ 0x80 ≤ c ∧ c ≤ 0xBF)) →
        is_utf8_go off (b :: rest) = .invalid off (some 1)) ∧
       (((b = 0xE0 ∧ 0xA0 ≤ c ∧ c ≤ 0xBF) ∨
         (0xE1 ≤ b ∧ b ≤ 0xEC ∧ 0x80 ≤ c ∧ c ≤ 0xBF) ∨
         (b = 0xED ∧ 0x80 ≤ c ∧ c ≤ 0x9F) ∨
         (0xEE ≤ b ∧ b ≤ 0xEF ∧ 0x80 ≤ c ∧ c ≤ 0xBF)) →
        ((rest2 = [] → is_utf8_go off (b :: rest) = .invalid off none) ∧
         (∀ d rest3, rest2 = d :: rest3 →
           ((¬ (0x80 ≤ d ∧ d ≤ 0xBF) →
              is_utf8_go off (b :: rest) = .invalid off (some 2)) ∧
            ((0x80 ≤ d ∧ d ≤ 0xBF) →
              is_utf8_go off (b :: rest) = is_utf8_go (off + 3) rest3))))))) := by
  have hrange := widthThreeRange b hb hw
  have h1 : ¬ b < 128 := by omega
  refine ⟨?_, ?_⟩
  · intro h
    subst h
    rw [igo_cons]
    simp [h1, hw]
  · intro c rest2 hres
    subst hres
    refine ⟨?_, ?_⟩
    · intro hnr
      have hv3 : valid3 b c = false := decide_eq_false hnr
      rw [igo_cons]
      simp [h1, hw, hv3]
    · intro hrg
      have hv3 : valid3 b c = true := decide_eq_true hrg
      refine ⟨?_, ?_⟩
      · intro h2
        subst h2
        rw [igo_cons]
        simp [h1, hw, hv3]
      · intro d rest3 h2
        subst h2
        have hd : d < 256 := hr d (by simp)
        refine ⟨?_, ?_⟩
        · intro hnd
          have hcd : contOk d = false := by
            cases hcc : contOk d with
            | false => rfl
            | true => exact absurd ((contIff d hd).mp hcc) hnd
          rw [igo_cons]
          simp [h1, hw, hv3, hcd]
        · intro hdr
          have hcd : contOk d = true := (contIff d hd).mpr hdr
          rw [igo_cons]
          simp [h1, hw, hv3, hcd]

theorem width3_unit_spec_witness :
    is_utf8_go 0 (0xE0 :: [0xA0, 0x80]) = is_utf8_go (0 + 3) [] :=
  ((((width3_unit_spec 0 0xE0 [0xA0, 0x80] (by decide) (by decide)
      (by decide)).2 0xA0 [0x80] rfl).2 (by decide)).2 0x80 [] rfl).2 (by decide)

/-- C4: behaviour of the grammar validator on a unit whose leading byte has
width 4: the second byte must lie in the lead-dependent range, the third
and fourth must be continuation bytes; the error shapes are `Some 1`,
`Some 2`, `Some 3`, or `none` for truncation, always with `valid_up_to` at
the start of the unit. -/
theorem width4_unit_spec (off b : Nat) (rest : List Nat) (hb : b < 256)
    (hw : utf8CharWidth b = 4) (hr : ∀ x ∈ rest, x < 256) :
    (rest = [] → is_utf8_go off (b :: rest) = .invalid off none) ∧
    (∀ c rest2, rest = c :: rest2 →
      ((¬ ((b = 0xF0 ∧ 0x90 ≤ c ∧ c ≤ 0xBF) ∨
           (0xF1 ≤ b ∧ b ≤ 0xF3 ∧ 0x80 ≤ c ∧ c ≤ 0xBF) ∨
           (b = 0xF4 ∧ 0x80 ≤ c ∧ c ≤ 0x8F)) →
        is_utf8_go off (b :: rest) = .invalid off (some 1)) ∧
       (((b = 0xF0 ∧ 0x90 ≤ c ∧ c ≤ 0xBF) ∨
         (0xF1 ≤ b ∧ b ≤ 0xF3 ∧ 0x80 ≤ c ∧ c ≤ 0xBF) ∨
         (b = 0xF4 ∧ 0x80 ≤ c ∧ c ≤ 0x8F)) →
        ((rest2 = [] → is_utf8_go off (b :: rest) = .invalid off none) ∧
         (∀ d rest3, rest2 = d :: rest3 →
           ((¬ (0x80 ≤ d ∧ d ≤ 0xBF) →
              is_utf8_go off (b :: rest) = .invalid off (some 2)) ∧
            ((0x80 ≤ d ∧ d ≤ 0xBF) →
              ((rest3 = [] → is_utf8_go off (b :: rest) = .invalid off none) ∧
               (∀ e rest4, rest3 = e :: rest4 →
                 ((¬ (0x80 ≤ e ∧ e ≤ 0xBF) →
                    is_utf8_go off (b :: rest) = .invalid off (some 3)) ∧
                  ((0x80 ≤ e ∧ e ≤ 0xBF) →
                    is_utf8_go off (b :: rest) = is_utf8_go (off + 4) rest4))))))))))) := by
  have hrange := widthFourRange b hb hw
  have h1 : ¬ b < 128 := by omega
  refine ⟨?_, ?_⟩
  · intro h
    subst h
    rw [igo_cons]
    simp [h1, hw]
  · intro c rest2 hres
    subst hres
    refine ⟨?_, ?_⟩
    · intro hnr
      have hv4 : valid4 b c = false := decide_eq_false hnr
      rw [igo_cons]
      simp [h1, hw, hv4]
    · intro hrg
      have hv4 : valid4 b c = true := decide_eq_true hrg
      refine ⟨?_, ?_⟩
      · intro h2
        subst h2
        rw [igo_cons]
        simp [h1, hw, hv4]
      · intro d rest3 h2
        subst h2
        have hd : d < 256 := hr d (by simp)
        refine ⟨?_, ?_⟩
        · intro hnd
          have hcd : contOk d = false := by
            cases hcc : contOk d with
            | false => rfl
            | true => exact absurd ((contIff d hd).mp hcc) hnd
          rw [igo_cons]
          simp [h1, hw, hv4, hcd]
        · intro hdr
          have hcd : contOk d = true := (contIff d hd).mpr hdr
          refine ⟨?_, ?_⟩
          · intro h3
            subst h3
            rw [igo_cons]
            simp [h1, hw, hv4, hcd]
          · intro e rest4 h3
            subst h3
            have he : e < 256 := hr e (by simp)
            refine ⟨?_, ?_⟩
            · intro hne
              have hce : contOk e = false := by
                cases hcc : contOk e with
                | false => rfl
                | true => exact absurd ((contIff e he).mp hcc) hne
              rw [igo_cons]
              simp [h1, hw, hv4, hcd, hce]
            · intro her
              have hce : contOk e = true := (contIff e he).mpr her
              rw [igo_cons]
              simp [h1, hw, hv4, hcd, hce]

theorem width4_unit_spec_witness :
    is_utf8_go 0 (0xF4 :: [0x8F, 0xBF, 0xBF]) = is_utf8_go (0 + 4) [] :=
  ((((((width4_unit_spec 0 0xF4 [0x8F, 0xBF, 0xBF] (by decide) (by decide)
      (by decide)).2 0x8F [0xBF, 0xBF] rfl).2 (by decide)).2 0xBF [0xBF] rfl).2
      (by decide)).2 0xBF [] rfl).2 (by decide)

end IsUtf8
